import Mathlib

/-!
Shallow embedding of the K8sBlackPearl worker subsystem.

The repository drives declarative Kubernetes operations through a pool of
cooperative workers.  The files under `worker/` contain several historical
revisions of the same functions; each section below names the file (and, where
several revisions coexist, the revision) that it embeds.

Modelling conventions:
* Go `map[string]interface{}` parameter maps become association lists over a
  small value type (`PValue`).
* The Kubernetes client is abstracted by the function
  `getPod : String → String → Option Pod` (namespace → pod name → pod), which
  stands for `clientset.CoreV1().Pods(namespace).Get(...)`.
* Handler execution (`performTask`) is abstracted by an oracle giving the
  error outcome of each invocation; `none` means the handler returned `nil`.
* `context.Context` cancellation is modelled either as a constant flag
  (`CrewEnv.ctxCancelled`, adequate for runs whose cancellation state does not
  change mid-task) or, where the timing of cancellation matters
  (`RetryPolicy.Execute`), as an absolute virtual time `Ctx.cancelAt` together
  with a virtual clock threaded through the execution.
* Go `int` is modelled as `Int`; loop counters that Go starts at 0 are `Nat`.
* Go `time.Duration` (an `int64` of nanoseconds) is modelled as `Int`.
-/

namespace K8sBlackPearl

/-- Values stored in a task's `Parameters` map (`map[string]interface{}`).
Handlers and the conflict resolver only distinguish strings, numbers and
everything else, via type assertions. -/
inductive PValue where
  | str (s : String)
  | int (n : Int)
  | other
  deriving DecidableEq, Repr

/-- A task parameter map, `map[string]interface{}` in the source.  Keys are
unique in well-formed maps; `Params.insert` updates in place like a Go map
assignment. -/
abbrev Params := List (String × PValue)

/-- Lookup in a parameter map (`params[key]`). -/
def Params.find (params : Params) (key : String) : Option PValue :=
  match params with
  | [] => none
  | (k, v) :: rest => if k = key then some v else Params.find rest key

/-- Go map assignment `params[key] = v`: replaces the binding if the key is
present, otherwise adds it. -/
def Params.insert (params : Params) (key : String) (v : PValue) : Params :=
  match params with
  | [] => [(key, v)]
  | (k, w) :: rest =>
      if k = key then (k, v) :: rest else (k, w) :: Params.insert rest key v

/-- The fragment of `corev1.Pod` the conflict resolver reads: the object
metadata's resource version. -/
structure Pod where
  resourceVersion : String
  deriving DecidableEq, Repr

/-- Embeds `configuration.Task` from `worker/configuration/task.go`.  Go `int`
`MaxRetries` is an `Int`; `RetryDelayDuration` is nanoseconds (`Int`), filled
in by the loader.  The Go field `Type` is `TaskType` here (`Type` is reserved
in Lean). -/
structure Task where
  Name : String
  ShipsNamespace : String
  MaxRetries : Int
  RetryDelay : String
  RetryDelayDuration : Int
  TaskType : String
  Parameters : Params
  deriving DecidableEq, Repr

/-- Embeds `language.PodName`: the well-known parameter key naming the target pod. -/
def PodName : String := "podName"

/-- Embeds `language.ResourceVersion`: the well-known parameter key the conflict
resolver writes. -/
def ResourceVersion : String := "resourceVersion"

/-- An apostrophe, kept out of string literals. -/
def apos : String := String.singleton (Char.ofNat 39)

/-- The success result line: `fmt.Sprintf(language.TaskWorker_Name,
workerIndex, fmt.Sprintf(language.TaskCompleteS, task.Name))` with
`TaskWorker_Name = "Crew Worker %d: %s"` and
`TaskCompleteS = "Task '%s' completed successfully."`. -/
def mkSuccessMessage (workerIndex : Nat) (name : String) : String :=
  "Crew Worker " ++ toString workerIndex ++ ": Task " ++ apos ++ name ++ apos
    ++ " completed successfully."

/-- The terminal error line: `fmt.Errorf(language.ErrorFailedToCompleteTask,
task.Name, task.MaxRetries)` with `ErrorFailedToCompleteTask =
"Failed to complete task %s after %d attempts"`. -/
def mkFailMessage (name : String) (maxRetries : Int) : String :=
  "Failed to complete task " ++ name ++ " after " ++ toString maxRetries
    ++ " attempts"

/-- Embeds `TaskStatusMap` (`worker/track_task.go`): the set of task names currently
claimed.  The Go struct guards a `map[string]bool` with a mutex; the mutex
makes `Claim`/`Release` atomic, so the set itself is the whole state. -/
abbrev TaskStatusMap := List String

/-- Embeds `TaskStatusMap.Claim`: atomic test-and-set.  Returns `false` and leaves
the map unchanged if the name is already claimed; otherwise records the claim
and returns `true`. -/
def TaskStatusMap.Claim (m : TaskStatusMap) (taskName : String) :
    Bool × TaskStatusMap :=
  if taskName ∈ m then (false, m) else (true, taskName :: m)

/-- Embeds `TaskStatusMap.Release`: removes a name from the claimed set
(`delete(m.claimed, taskName)`); idempotent. -/
def TaskStatusMap.Release (m : TaskStatusMap) (taskName : String) :
    TaskStatusMap :=
  m.erase taskName

/-- Error outcome of one `performTask` (handler) invocation, as classified by
the executor: `apierrors.IsConflict(err)` distinguishes optimistic-concurrency
conflicts from everything else. -/
inductive PerformErr where
  | conflict
  | generic
  deriving DecidableEq, Repr

/-- Errors returned by `resolveConflict` (`worker/crew.go`). -/
inductive RCErr where
  | paramMustBeString
  | getPodFailed
  deriving DecidableEq, Repr

/-- Embeds `getParamAsString` (`worker/error_and_retry.go` / `helper.go`): the type
assertion `params[key].(string)`, failing when the key is absent or the value
is not a string. -/
def getParamAsString (params : Params) (key : String) : Except Unit String :=
  match Params.find params key with
  | some (PValue.str value) => Except.ok value
  | _ => Except.error ()

/-- Embeds `getLatestVersionOfPod` (`worker/tasks_crew.go`): a thin wrapper around
`clientset.CoreV1().Pods(namespace).Get(ctx, podName, ...)`, abstracted by the
`getPod` function. -/
def getLatestVersionOfPod (getPod : String → String → Option Pod)
    (shipsNamespace podName : String) : Option Pod :=
  getPod shipsNamespace podName

/-- Embeds `resolveConflict` (`worker/crew.go` lines 140–152).  Reads the `podName`
parameter, refetches the pod, and on success writes the fetched resource
version into the parameter map under `resourceVersion`.  The Go function
mutates `task.Parameters` in place; here the (possibly updated) map is
returned alongside the error. -/
def resolveConflict (getPod : String → String → Option Pod)
    (shipsNamespace : String) (params : Params) : Option RCErr × Params :=
  match getParamAsString params PodName with
  | Except.error _ => (some RCErr.paramMustBeString, params)
  | Except.ok podName =>
      match getLatestVersionOfPod getPod shipsNamespace podName with
      | none => (some RCErr.getPodFailed, params)
      | some updatedPod =>
          (none, Params.insert params ResourceVersion
            (PValue.str updatedPod.resourceVersion))

/-- Embeds `handleConflictError` (`worker/error_and_retry.go`): retry iff
`resolveConflict` succeeded. -/
def handleConflictError (getPod : String → String → Option Pod)
    (shipsNamespace : String) (params : Params) : Bool × Params :=
  match resolveConflict getPod shipsNamespace params with
  | (some _, p) => (false, p)
  | (none, p) => (true, p)

namespace Crew

/-!
Embedding of `worker/crew.go` (the self-contained revision whose
`performTaskWithRetries` is defined in the same file, lines 110–123): the
per-task executor `processTask` with its claim / retry / release logic.

Cancellation is modelled as a constant flag, so the theorems below cover the
runs in which the context's cancellation state does not change while a task
is being processed (in particular: never cancelled, or cancelled throughout).
-/

/-- Environment abstracting the collaborators of the crew executor:
the handler outcome of each `performTask` invocation (by task name and
attempt index; `none` = success), the cluster client's pod fetch, and the
context's cancellation state. -/
structure CrewEnv where
  attemptResult : String → Nat → Option PerformErr
  getPod : String → String → Option Pod
  ctxCancelled : Bool

/-- Embeds `handleGenericError` (`worker/error_and_retry.go`, revision used by
`crew.go`): logs, sleeps `retryDelay`, then retries unless the context was
cancelled.  The sleep does not affect the constant cancellation flag. -/
def handleGenericError (env : CrewEnv) : Bool :=
  !env.ctxCancelled

/-- Embeds `handleTaskError` (`worker/error_and_retry.go`, revision used by
`crew.go`): no retry once the context is cancelled; conflicts go through
`handleConflictError` (which may update the parameter map); other errors go
through `handleGenericError`. -/
def handleTaskError (env : CrewEnv) (shipsNamespace : String)
    (err : PerformErr) (params : Params) : Bool × Params :=
  if env.ctxCancelled then (false, params)
  else
    match err with
    | PerformErr.conflict => handleConflictError env.getPod shipsNamespace params
    | PerformErr.generic => (handleGenericError env, params)

/-- Loop body of `performTaskWithRetries` (`worker/crew.go` lines 110–123),
by recursion on the remaining attempt budget.  Returns whether the task
succeeded, the strings sent on the results channel, and the final parameter
map.  On success the function itself sends the success message (line 118). -/
def performTaskWithRetriesAux (env : CrewEnv) (shipsNamespace name : String)
    (workerIndex : Nat) :
    Nat → Nat → Params → Bool × List String × Params
  | 0, _, params => (false, [], params)
  | remaining + 1, attempt, params =>
      match env.attemptResult name attempt with
      | none => (true, [mkSuccessMessage workerIndex name], params)
      | some err =>
          match handleTaskError env shipsNamespace err params with
          | (true, params1) =>
              performTaskWithRetriesAux env shipsNamespace name workerIndex
                remaining (attempt + 1) params1
          | (false, params1) => (false, [], params1)

/-- Embeds `performTaskWithRetries` (`worker/crew.go` lines 110–123): up to
`task.MaxRetries` attempts (a non-positive budget runs no attempt and fails
immediately, as the Go `for` loop does). -/
def performTaskWithRetries (env : CrewEnv) (shipsNamespace : String)
    (task : Task) (workerIndex : Nat) : Bool × List String × Params :=
  performTaskWithRetriesAux env shipsNamespace task.Name workerIndex
    task.MaxRetries.toNat 0 task.Parameters

/-- Embeds `handleFailedTask` (`worker/crew.go` lines 76–80): releases the claim and
sends `err.Error()` on the results channel. -/
def handleFailedTask (task : Task) (taskStatus : TaskStatusMap)
    (errMessage : String) : TaskStatusMap × List String :=
  (TaskStatusMap.Release taskStatus task.Name, [errMessage])

/-- Embeds `handleSuccessfulTask` (`worker/crew.go` lines 90–93): sends the success
message on the results channel. -/
def handleSuccessfulTask (task : Task) (workerIndex : Nat) : List String :=
  [mkSuccessMessage workerIndex task.Name]

/-- Result of one `processTask` call: the updated claim set, the strings sent
on the results channel, and the terminal outcome (`none` when the claim
failed and the task was skipped; `some b` when the task reached a terminal
outcome, `b` = success). -/
structure ProcResult where
  taskStatus : TaskStatusMap
  emitted : List String
  outcome : Option Bool
  deriving DecidableEq, Repr

/-- Embeds `processTask` (`worker/crew.go` lines 52–63): claim, run with retries,
then `handleFailedTask` (release + error line) or `handleSuccessfulTask`
(success line — in addition to the one already sent by
`performTaskWithRetries`). -/
def processTask (env : CrewEnv) (shipsNamespace : String) (task : Task)
    (taskStatus : TaskStatusMap) (workerIndex : Nat) : ProcResult :=
  match TaskStatusMap.Claim taskStatus task.Name with
  | (false, m) => ⟨m, [], none⟩
  | (true, m) =>
      match performTaskWithRetries env shipsNamespace task workerIndex with
      | (true, msgs, _) =>
          ⟨m, msgs ++ handleSuccessfulTask task workerIndex, some true⟩
      | (false, msgs, _) =>
          match handleFailedTask task m
              (mkFailMessage task.Name task.MaxRetries) with
          | (m1, out) => ⟨m1, msgs ++ out, some false⟩

/-- Embeds `CrewWorker` (`worker/crew.go` lines 31–35): one worker iterates the
shared task slice in order, delegating each task to `processTask`.  Returns
the final claim set and everything this worker sent. -/
def CrewWorker (env : CrewEnv) (shipsNamespace : String) :
    List Task → TaskStatusMap → Nat → TaskStatusMap × List String
  | [], taskStatus, _ => (taskStatus, [])
  | task :: rest, taskStatus, workerIndex =>
      let r := processTask env shipsNamespace task taskStatus workerIndex
      let (m1, out) := CrewWorker env shipsNamespace rest r.taskStatus workerIndex
      (m1, r.emitted ++ out)

end Crew

namespace Pool

/-!
Interleaved execution of the worker pool (`CaptainTellWorkers` spawning
`workerCount` goroutines that each run `Crew.CrewWorker` over the shared task
slice, sharing one `TaskStatusMap` and one results channel).

Each worker alternates between two atomic phases, matching the shared-state
operations of `processTask`: the atomic `TaskStatusMap.Claim` on the next
task of its slice, and — once a claim is held — running the task to its
terminal outcome (`performTaskWithRetries` followed by `handleFailedTask` or
`handleSuccessfulTask`, whose `Release` and channel sends are the only other
shared-state effects).  A schedule is the sequence of worker indices chosen
by the Go scheduler; any interleaving of the claim/terminal phases is
expressible. -/

/-- One worker's private state: the rest of its task slice, and the task it
currently holds a claim on (terminal outcome pending), if any. -/
structure WorkerState where
  queue : List Task
  cur : Option Task
  deriving DecidableEq, Repr

/-- Ghost record of a terminal outcome (a handler run to success or terminal
error), for stating at-most-once properties. -/
structure TEvent where
  workerIndex : Nat
  name : String
  success : Bool
  deriving DecidableEq, Repr

/-- Shared state of the pool: the workers, the shared claim set, the results
channel contents (in send order) and the ghost log of terminal outcomes. -/
structure SystemState where
  workers : List WorkerState
  taskStatus : TaskStatusMap
  results : List String
  log : List TEvent
  deriving DecidableEq, Repr

/-- Terminal phase of `processTask` for a claimed task: the retry loop plus
`handleSuccessfulTask` (second success send) or `handleFailedTask`
(release + error send).  Returns the updated claim set, the sends, and the
success flag. -/
def finishTask (env : Crew.CrewEnv) (shipsNamespace : String) (task : Task)
    (taskStatus : TaskStatusMap) (workerIndex : Nat) :
    TaskStatusMap × List String × Bool :=
  match Crew.performTaskWithRetries env shipsNamespace task workerIndex with
  | (true, msgs, _) =>
      (taskStatus, msgs ++ Crew.handleSuccessfulTask task workerIndex, true)
  | (false, msgs, _) =>
      match Crew.handleFailedTask task taskStatus
          (mkFailMessage task.Name task.MaxRetries) with
      | (m1, out) => (m1, msgs ++ out, false)

/-- One scheduler step: worker `w` either finishes the task it has claimed,
or pops the next task of its slice and tries to claim it (skipping it when
the claim fails, as `processTask` does).  Indices without a worker, and idle
workers with an empty slice, do nothing. -/
def step (env : Crew.CrewEnv) (shipsNamespace : String) (s : SystemState)
    (w : Nat) : SystemState :=
  match s.workers[w]? with
  | none => s
  | some ws =>
      match ws.cur with
      | some task =>
          match finishTask env shipsNamespace task s.taskStatus w with
          | (m1, out, ok) =>
              { workers := s.workers.set w { ws with cur := none },
                taskStatus := m1,
                results := s.results ++ out,
                log := s.log ++ [⟨w, task.Name, ok⟩] }
      | none =>
          match ws.queue with
          | [] => s
          | task :: rest =>
              match TaskStatusMap.Claim s.taskStatus task.Name with
              | (false, m) =>
                  { s with
                    workers := s.workers.set w { queue := rest, cur := none },
                    taskStatus := m }
              | (true, m) =>
                  { s with
                    workers := s.workers.set w { queue := rest, cur := some task },
                    taskStatus := m }

/-- Initial pool state: `workerCount` workers, each holding the full shared
task slice; empty claim set, channel and log. -/
def initState (tasks : List Task) (workerCount : Nat) : SystemState :=
  { workers := List.replicate workerCount ⟨tasks, none⟩,
    taskStatus := [],
    results := [],
    log := [] }

/-- Run the pool under a schedule (the sequence of workers picked by the Go
scheduler). -/
def run (env : Crew.CrewEnv) (shipsNamespace : String) (s : SystemState) :
    List Nat → SystemState
  | [] => s
  | w :: sched => run env shipsNamespace (step env shipsNamespace s w) sched

/-- Number of terminal outcomes recorded for a task name. -/
def terminalCount (log : List TEvent) (name : String) : Nat :=
  (log.filter fun e => e.name == name).length

/-- Number of successful terminal outcomes recorded for a task name. -/
def successCount (log : List TEvent) (name : String) : Nat :=
  (log.filter fun e => e.name == name && e.success).length

/-- Number of workers currently holding a claim on `name` (terminal phase
pending). -/
def ownersCount (workers : List WorkerState) (name : String) : Nat :=
  workers.countP fun ws =>
    match ws.cur with
    | some t => t.Name == name
    | none => false

end Pool

namespace Retry

/-!
Embedding of `RetryPolicy.Execute` as defined in `worker/error_and_retry.go`
lines 724–750: a `select` on `ctx.Done()` at the top of every iteration, the
attempt, and a plain `time.Sleep(r.RetryDelay)` between attempts.

Timing is explicit: a virtual clock (nanoseconds, `Nat`) starts at 0, each
`operation()` call takes `opDur`, and `time.Sleep` always advances the clock
by the full (non-negative part of the) delay — a plain sleep is not
interruptible by context cancellation.  The context is a single absolute
cancellation instant. -/

/-- Embeds `RetryPolicy` (`worker/error_and_retry.go`): attempt budget (Go `int`)
and delay between attempts (Go `time.Duration`, nanoseconds). -/
structure RetryPolicy where
  MaxRetries : Int
  RetryDelay : Int
  deriving DecidableEq, Repr

/-- A cancellable context: `cancelAt = some t` means `ctx.Done()` is closed
from virtual time `t` on. -/
structure Ctx where
  cancelAt : Option Nat
  deriving DecidableEq, Repr

/-- Whether `ctx.Done()` is ready at time `now`. -/
def Ctx.done (c : Ctx) (now : Nat) : Bool :=
  match c.cancelAt with
  | none => false
  | some t => decide (t ≤ now)

/-- The error value `Execute` returns: `nil`, `ctx.Err()`, or
`fmt.Errorf(language.ErrorFailedToCompleteAfterAttempts, r.MaxRetries,
lastErr)` carrying the attempt budget and the last attempt's error. -/
inductive ExecResult where
  | ok
  | ctxErr
  | failedAfterAttempts (maxRetries : Int) (lastErr : Option PerformErr)
  deriving DecidableEq, Repr

/-- Observable behaviour of one `Execute` call: the returned error, the
start time of every `operation()` invocation (in order), and the time of
return. -/
structure ExecTrace where
  result : ExecResult
  attemptStarts : List Nat
  finish : Nat
  deriving DecidableEq, Repr

/-- The `for attempt := 0; attempt < r.MaxRetries; attempt++` loop of
`Execute`, by recursion on the remaining budget.  `starts` accumulates
attempt start times in reverse. -/
def ExecuteAux (p : RetryPolicy) (ctx : Ctx) (op : Nat → Option PerformErr)
    (opDur : Nat) :
    Nat → Nat → Nat → Option PerformErr → List Nat → ExecTrace
  | 0, _, now, lastErr, starts =>
      ⟨ExecResult.failedAfterAttempts p.MaxRetries lastErr, starts.reverse, now⟩
  | remaining + 1, attempt, now, _lastErr, starts =>
      if Ctx.done ctx now then ⟨ExecResult.ctxErr, starts.reverse, now⟩
      else
        match op attempt with
        | none => ⟨ExecResult.ok, (now :: starts).reverse, now + opDur⟩
        | some e =>
            ExecuteAux p ctx op opDur remaining (attempt + 1)
              (if (attempt : Int) + 1 < p.MaxRetries then
                now + opDur + p.RetryDelay.toNat
              else now + opDur)
              (some e) (now :: starts)

/-- Embeds `RetryPolicy.Execute` (`worker/error_and_retry.go` lines 731–750),
starting at virtual time 0.  `op attempt` is the error outcome of the
`attempt`-th `operation()` call (`none` = success), each call taking
`opDur`. -/
def RetryPolicy.Execute (p : RetryPolicy) (ctx : Ctx)
    (op : Nat → Option PerformErr) (opDur : Nat) : ExecTrace :=
  ExecuteAux p ctx op opDur p.MaxRetries.toNat 0 0 none []

end Retry

namespace ExecRetry

/-!
Embedding of `performTaskWithRetries` as defined in
`worker/error_and_retry.go` lines 214–259: one `RetryPolicy.Execute`
activation per round; when the returned error is a conflict and
`handleConflictError` resolves it, the function calls itself again on the
same task — with no outer counter bounding these restarts.

The handler outcome oracle is indexed by round and attempt.  The Go
recursion passes `task` by value but its `Parameters` map by reference, so
the parameter map is threaded explicitly.  Restarts are driven by explicit
fuel; a `none` outcome means the recursion was still running when the fuel
ran out.  The virtual clock restarts at 0 in each round (timing is not the
subject of the theorems about this function).  Channel sends
(`handleFailedTask` / `handleSuccessfulTask`) are not tracked here.
-/

/-- Modelled from the spec: `apierrors.IsConflict` applied to the error
returned by `Execute`.  The text of the repository constant
`language.ErrorFailedToCompleteAfterAttempts` used to build that error is not
under `src/`; per the spec (§4.5, §9 "conflict loop bound"), a conflicted
exhaustion at the executor level triggers refresh-and-restart, so the wrapper
is modelled as error-wrapping (`%w`): `IsConflict` sees the last attempt's
error.  `ctx.Err()` and `nil` are never conflicts. -/
def isConflictErr : Retry.ExecResult → Bool
  | Retry.ExecResult.failedAfterAttempts _ (some PerformErr.conflict) => true
  | _ => false

/-- Embeds `performTaskWithRetries` (`worker/error_and_retry.go` lines 214–259).
Returns the outcome (`some true` = success handed to `handleSuccessfulTask`,
`some false` = terminal failure handed to `handleFailedTask`, `none` = fuel
exhausted with the recursion still running), the total number of handler
invocations, and the final parameter map. -/
def performTaskWithRetries (op : Nat → Nat → Option PerformErr)
    (getPod : String → String → Option Pod) (ctx : Retry.Ctx)
    (shipsNamespace : String) (task : Task) :
    Nat → Nat → Params → Option Bool × Nat × Params
  | 0, _, params => (none, 0, params)
  | fuel + 1, round, params =>
      let tr := Retry.RetryPolicy.Execute
        ⟨task.MaxRetries, task.RetryDelayDuration⟩ ctx (op round) 0
      match tr.result with
      | Retry.ExecResult.ok => (some true, tr.attemptStarts.length, params)
      | r =>
          if isConflictErr r then
            match handleConflictError getPod shipsNamespace params with
            | (true, params1) =>
                match performTaskWithRetries op getPod ctx shipsNamespace task
                    fuel (round + 1) params1 with
                | (o, n, p) => (o, tr.attemptStarts.length + n, p)
            | (false, params1) => (some false, tr.attemptStarts.length, params1)
          else (some false, tr.attemptStarts.length, params)

end ExecRetry

namespace Captain

/-!
Embedding of the shutdown closure returned by `CaptainTellWorkers`
(`worker/captain.go` lines 88–99): it cancels the derived context and spawns
a goroutine that waits for the workers and then closes the results channel.
Since the workers eventually return once the context is cancelled,
`wg.Wait()` terminates and each call's goroutine eventually executes its
`close(results)`; the model therefore folds that eventual close into the
call.  Closing a closed channel panics in Go.
-/

/-- Go runtime panics the shutdown path can hit. -/
inductive GoPanic where
  | closeOfClosedChannel
  deriving DecidableEq, Repr

/-- State owned by one `CaptainTellWorkers` activation, as seen by its
shutdown closure. -/
structure CaptainState where
  ctxCancelled : Bool
  resultsClosed : Bool
  deriving DecidableEq, Repr

/-- Embeds `close(results)`: marks the channel closed, panicking if it already
is. -/
def closeChan (resultsClosed : Bool) : Except GoPanic Bool :=
  if resultsClosed then Except.error GoPanic.closeOfClosedChannel
  else Except.ok true

/-- One call of the `shutdown` closure (`worker/captain.go` lines 88–99):
`cancelFunc()` then — after `wg.Wait()` — `close(results)`, with no guard
against repeated calls. -/
def shutdown (s : CaptainState) : Except GoPanic CaptainState :=
  let s1 : CaptainState := { s with ctxCancelled := true }
  match closeChan s1.resultsClosed with
  | Except.error p => Except.error p
  | Except.ok _ => Except.ok { s1 with resultsClosed := true }

/-- State of the later `CaptainTellWorkers` revision
(`src/unnamed/part_021`), whose closure is guarded by a `sync.Once`. -/
structure CaptainOnceState where
  onceDone : Bool
  ctxCancelled : Bool
  resultsClosed : Bool
  deriving DecidableEq, Repr

/-- One call of the guarded `shutdown` closure (`src/unnamed/part_021`):
`once.Do` runs the cancel-and-close body only on the first call. -/
def shutdownOnce (s : CaptainOnceState) : Except GoPanic CaptainOnceState :=
  if s.onceDone then Except.ok s
  else
    match closeChan s.resultsClosed with
    | Except.error p => Except.error p
    | Except.ok _ =>
        Except.ok { onceDone := true, ctxCancelled := true, resultsClosed := true }

end Captain

namespace Cfg

/-!
Embedding of the task loader (`worker/configuration/task.go`).  `os.ReadFile`
and `json.Unmarshal` are outside the program; the embedding starts from the
decoded `[]Task` slice (every `RetryDelayDuration` still zero, as Go's
unmarshalling leaves it) and performs the loader's own loop: parse each
task's `RetryDelay` and fill in `RetryDelayDuration`, failing on the first
parse error.
-/

/-- Errors of `ParseDuration` (`worker/configuration/task.go` lines
120–129): the empty-string guard (`language.ErrorDurationstringisEmpty`) and
a wrapped `time.ParseDuration` failure
(`language.ErrorFailedToParseDurationFromTask`). -/
inductive DurationError where
  | emptyDuration
  | parseFailed
  deriving DecidableEq, Repr

/-- Consume leading decimal digits (`leadingInt` in Go `time`), returning the
value and the rest.  Overflow checks are omitted: the durations of interest
are far below 2^63 nanoseconds. -/
def takeDigits : List Char → Nat → Nat × List Char
  | [], acc => (acc, [])
  | c :: rest, acc =>
      if c.isDigit then takeDigits rest (acc * 10 + (c.toNat - 48))
      else (acc, c :: rest)

/-- Consume a fractional part (`leadingFraction` in Go `time`), returning the
digits' value, the scale `10^digits`, and the rest. -/
def takeFraction : List Char → Nat → Nat → Nat × Nat × List Char
  | [], acc, scale => (acc, scale, [])
  | c :: rest, acc, scale =>
      if c.isDigit then takeFraction rest (acc * 10 + (c.toNat - 48)) (scale * 10)
      else (acc, scale, c :: rest)

/-- Consume the unit: everything up to the next digit or dot. -/
def takeUnit : List Char → List Char × List Char
  | [] => ([], [])
  | c :: rest =>
      if c.isDigit || c = Char.ofNat 46 then ([], c :: rest)
      else
        match takeUnit rest with
        | (u, r) => (c :: u, r)

/-- Go `time`'s `unitMap`: nanoseconds per unit. -/
def unitMap (u : String) : Option Nat :=
  if u = "ns" then some 1
  else if u = "us" then some 1000
  else if u = "µs" then some 1000
  else if u = "μs" then some 1000
  else if u = "ms" then some 1000000
  else if u = "s" then some 1000000000
  else if u = "m" then some 60000000000
  else if u = "h" then some 3600000000000
  else none

/-- The component loop of Go `time.ParseDuration`: each round reads an
integer part, an optional fraction, and a unit, and adds the contribution.
The fractional contribution `f * unit / scale` is Go's
`f * (unit / scale)` computed exactly (they agree on the inputs of
interest).  Fuel is the input length plus one; every round consumes at least
one character. -/
def parseComponents : Nat → List Char → Nat → Option Nat
  | 0, _, _ => none
  | _ + 1, [], acc => some acc
  | fuel + 1, c :: rest, acc =>
      if !(c.isDigit || c = Char.ofNat 46) then none
      else
        match takeDigits (c :: rest) 0 with
        | (v, s1) =>
            let pre := decide (s1.length < (c :: rest).length)
            match
              match s1 with
              | d :: tail =>
                  if d = Char.ofNat 46 then
                    match takeFraction tail 0 1 with
                    | (f, scale, s2) => (f, scale, s2, decide (s2.length < tail.length))
                  else (0, 1, s1, false)
              | [] => (0, 1, s1, false)
            with
            | (f, scale, s2, post) =>
                if !pre && !post then none
                else
                  match takeUnit s2 with
                  | ([], _) => none
                  | (u, s3) =>
                      match unitMap (String.mk u) with
                      | none => none
                      | some unit =>
                          parseComponents fuel s3
                            (acc + v * unit + f * unit / scale)

/-- Model of Go `time.ParseDuration` (standard library, external to the
repository): optional sign, the special case `"0"`, then one or more
number-unit components.  Returns nanoseconds; `none` on malformed input. -/
def goParseDuration (s : String) : Option Int :=
  let cs := s.toList
  let signed : Bool × List Char :=
    match cs with
    | c :: rest =>
        if c = Char.ofNat 45 then (true, rest)
        else if c = Char.ofNat 43 then (false, rest)
        else (false, cs)
    | [] => (false, [])
  match signed with
  | (neg, cs1) =>
      if cs1 = [Char.ofNat 48] then some 0
      else if cs1 = [] then none
      else
        match parseComponents (cs1.length + 1) cs1 0 with
        | none => none
        | some d => some (if neg then -(d : Int) else (d : Int))

/-- Embeds `ParseDuration` (`worker/configuration/task.go` lines 120–129): an empty
string is rejected up front; otherwise `time.ParseDuration` decides. -/
def ParseDuration (durationStr : String) : Except DurationError Int :=
  if durationStr = "" then Except.error DurationError.emptyDuration
  else
    match goParseDuration durationStr with
    | some duration => Except.ok duration
    | none => Except.error DurationError.parseFailed

/-- Load error of `LoadTasksFromJSON`:
`fmt.Errorf(language.ErrorFailedToParseRetryDelayFromTask, task.Name, err)`. -/
inductive LoadError where
  | retryDelayParse (taskName : String) (e : DurationError)
  deriving DecidableEq, Repr

/-- The per-task loop of `LoadTasksFromJSON` (`worker/configuration/task.go`
lines 59–65), starting from the decoded slice: parse each `RetryDelay` and
store the duration, failing on the first task whose delay does not parse.
(`LoadTasksFromYAML` runs the identical loop; `LoadTasks` dispatches on the
file extension before either.) -/
def LoadTasksFromJSON : List Task → Except LoadError (List Task)
  | [] => Except.ok []
  | task :: rest =>
      match ParseDuration task.RetryDelay with
      | Except.error e =>
          Except.error (LoadError.retryDelayParse task.Name e)
      | Except.ok duration =>
          match LoadTasksFromJSON rest with
          | Except.error e => Except.error e
          | Except.ok tasks =>
              Except.ok ({ task with RetryDelayDuration := duration } :: tasks)

end Cfg

namespace Pool

/-- Claim-set invariant of the pool, per task name: the claim set never
repeats a name, at most one of "a worker holds the claim" / "a success was
recorded" is the case, and the name is claimed exactly when one of them
is. -/
def Inv (s : SystemState) (n : String) : Prop :=
  s.taskStatus.Nodup ∧
  successCount s.log n + ownersCount s.workers n ≤ 1 ∧
  (n ∈ s.taskStatus ↔ successCount s.log n + ownersCount s.workers n = 1)

end Pool

/-!
Concrete scenario inputs, mirroring the spec's end-to-end scenarios
(S1 happy task, S2 terminal failure, S5 conflict refresh, S6 duplicate
claims).
-/

/-- Handlers that always succeed; context never cancelled. -/
def envAllOk : Crew.CrewEnv := ⟨fun _ _ => none, fun _ _ => none, false⟩

/-- Handlers that always fail with a non-conflict error; context never
cancelled. -/
def envAllFail : Crew.CrewEnv :=
  ⟨fun _ _ => some PerformErr.generic, fun _ _ => none, false⟩

/-- Handlers that always fail with a non-conflict error; context cancelled
throughout. -/
def envCancelledFail : Crew.CrewEnv :=
  ⟨fun _ _ => some PerformErr.generic, fun _ _ => none, true⟩

/-- S1's task: one happy task with a budget of 3 attempts. -/
def taskT1 : Task := ⟨"T1", "ns", 3, "10ms", 10000000, "NoopOk", []⟩

/-- A task with a single attempt whose handler always fails. -/
def taskT : Task := ⟨"T", "ns", 1, "1ms", 1000000, "FailForever", []⟩

/-- A parameter map naming the target pod `p`. -/
def paramsPod : Params := [(PodName, PValue.str "p")]

/-- S5's pod-targeting task with a budget of 2 attempts. -/
def taskT5 : Task := ⟨"T5", "ns", 2, "1ms", 1000000, "PodLabel", paramsPod⟩

/-- Handler outcomes that are a conflict on every round and attempt. -/
def opConflict : Nat → Nat → Option PerformErr :=
  fun _ _ => some PerformErr.conflict

/-- A cluster in which every pod fetch succeeds with resource version
`v2`. -/
def getPodOk : String → String → Option Pod := fun _ _ => some ⟨"v2"⟩

/-- A cluster in which every pod fetch fails. -/
def getPodFail : String → String → Option Pod := fun _ _ => none

/-- A decoded task whose `maxRetries` is 0 but whose `retryDelay` parses. -/
def rawZeroRetries : Task := ⟨"t1", "ns", 0, "1s", 0, "x", []⟩

/-- A decoded task with the same name as `rawZeroRetries` and a negative
`retryDelay`. -/
def rawNegDelay : Task := ⟨"t1", "ns", 1, "-1s", 0, "x", []⟩

/-! Helper lemmas about parameter maps. -/

lemma Params.find_insert_self (params : Params) (k : String) (v : PValue) :
    Params.find (Params.insert params k v) k = some v := by
  induction params with
  | nil => simp [Params.insert, Params.find]
  | cons hd tl ih =>
      obtain ⟨k1, w⟩ := hd
      by_cases h : k1 = k <;> simp [Params.insert, Params.find, h, ih]

lemma Params.find_insert_ne (params : Params) (k k1 : String) (v : PValue)
    (h : k1 ≠ k) :
    Params.find (Params.insert params k v) k1 = Params.find params k1 := by
  induction params with
  | nil => simp [Params.insert, Params.find, Ne.symm h]
  | cons hd tl ih =>
      obtain ⟨k2, w⟩ := hd
      by_cases h2 : k2 = k
      · simp [Params.insert, Params.find, h2, Ne.symm h]
      · by_cases h1 : k2 = k1 <;>
          simp [Params.insert, Params.find, h1, h2, h, ih]

/-- C2: calling the `shutdown` closure of `CaptainTellWorkers`
(`worker/captain.go` lines 88–99) a second time closes the already-closed
results channel and panics; the first call behaves as specified.  The
claimed once-only semantics is what the later `sync.Once`-guarded revision
(`src/unnamed/part_021`, `shutdownOnce`) implements. -/
theorem shutdown_double_call_panics :
    Captain.shutdown ⟨false, false⟩ = Except.ok ⟨true, true⟩ ∧
    (Captain.shutdown ⟨false, false⟩ >>= Captain.shutdown) =
      Except.error Captain.GoPanic.closeOfClosedChannel :=
  ⟨rfl, rfl⟩

lemma shutdownOnce_second_call_is_noop (s s1 : Captain.CaptainOnceState)
    (h : Captain.shutdownOnce s = Except.ok s1) :
    Captain.shutdownOnce s1 = Except.ok s1 := by
  unfold Captain.shutdownOnce Captain.closeChan at *
  by_cases ho : s.onceDone
  · simp [ho] at h
    subst h
    simp [ho]
  · simp [ho] at h
    by_cases hc : s.resultsClosed
    · simp [hc] at h
    · simp [hc] at h
      subst h
      simp

/-- C3: a task whose handler returns `nil` produces TWO success lines on the
results channel: `performTaskWithRetries` (`worker/crew.go` line 118) sends
one, and `processTask` then calls `handleSuccessfulTask` (lines 61, 90–93),
which sends the identical line again. -/
theorem successful_task_emits_two_results :
    Crew.processTask envAllOk "ns" taskT1 [] 2 =
      ⟨["T1"], [mkSuccessMessage 2 "T1", mkSuccessMessage 2 "T1"], some true⟩ := by
  decide

/-- C9: when the parameter map names a pod and the cluster returns its
latest version, `resolveConflict` writes the fetched resource version under
the `resourceVersion` key and returns no error, so the next attempt observes
the refreshed value; when the fetch fails, it returns the error and no
update happens. -/
theorem resolveConflict_refreshes_resource_version
    (getPod : String → String → Option Pod) (shipsNamespace : String)
    (params : Params) (pn : String) (pod : Pod)
    (hpn : Params.find params PodName = some (PValue.str pn)) :
    (getPod shipsNamespace pn = some pod →
        resolveConflict getPod shipsNamespace params =
          (none, Params.insert params ResourceVersion
            (PValue.str pod.resourceVersion)) ∧
        Params.find (resolveConflict getPod shipsNamespace params).2
            ResourceVersion = some (PValue.str pod.resourceVersion)) ∧
    (getPod shipsNamespace pn = none →
        resolveConflict getPod shipsNamespace params =
          (some RCErr.getPodFailed, params)) := by
  have hg : getParamAsString params PodName = Except.ok pn := by
    unfold getParamAsString
    rw [hpn]
  constructor
  · intro h
    have he : resolveConflict getPod shipsNamespace params =
        (none, Params.insert params ResourceVersion
          (PValue.str pod.resourceVersion)) := by
      unfold resolveConflict
      simp only [hg, getLatestVersionOfPod, h]
    exact ⟨he, by rw [he]; exact Params.find_insert_self params _ _⟩
  · intro h
    unfold resolveConflict
    simp only [hg, getLatestVersionOfPod, h]

/-- C9 witness: scenario S5 — a pod-targeting task and a cluster answering
with resource version `v2`. -/
theorem resolveConflict_refreshes_resource_version_witness :
    resolveConflict getPodOk "ns" paramsPod =
      (none, Params.insert paramsPod ResourceVersion (PValue.str "v2")) :=
  ((resolveConflict_refreshes_resource_version getPodOk "ns" paramsPod "p"
    ⟨"v2"⟩ rfl).1 rfl).1

/-- C10: whenever `resolveConflict` returns an error — the `podName`
parameter missing or not a string, or the pod fetch failing — the parameter
map is left unchanged; the `resourceVersion` write happens only on the
success path. -/
theorem resolveConflict_error_leaves_params_unchanged
    (getPod : String → String → Option Pod) (shipsNamespace : String)
    (params : Params) (e : RCErr)
    (h : (resolveConflict getPod shipsNamespace params).1 = some e) :
    (resolveConflict getPod shipsNamespace params).2 = params := by
  cases hg : getParamAsString params PodName with
  | error u =>
      unfold resolveConflict
      simp only [hg]
  | ok pn =>
      cases hp : getPod shipsNamespace pn with
      | none =>
          unfold resolveConflict
          simp only [hg, getLatestVersionOfPod, hp]
      | some pod =>
          unfold resolveConflict at h
          simp only [hg, getLatestVersionOfPod, hp] at h
          exact Option.noConfusion h

/-- C10 witness: an empty parameter map has no `podName`, so the call fails
and the map is untouched. -/
theorem resolveConflict_error_leaves_params_unchanged_witness :
    (resolveConflict getPodOk "ns" []).2 = [] :=
  resolveConflict_error_leaves_params_unchanged getPodOk "ns" []
    RCErr.paramMustBeString rfl

/-- C7 counterexample: with the context cancelled throughout, `processTask`
claims the task, the retry loop fails out, and `handleFailedTask` RELEASES
the claim (the final claim set no longer contains the name) and emits the
generic terminal-failure line, not a cancellation-specific result —
contradicting the claim that a cancelled task is not released. -/
theorem cancelled_task_released :
    (Crew.processTask envCancelledFail "ns" taskT1 [] 0).outcome = some false ∧
    "T1" ∉ (Crew.processTask envCancelledFail "ns" taskT1 [] 0).taskStatus := by
  decide

/-- C7 (amended): `processTask` releases the claim exactly on the terminal
failure path and keeps it on success; context cancellation is not a separate
case — a run that fails under a cancelled context is treated as a terminal
failure: the claim is released and the generic failure line (not a
cancellation result) is emitted. -/
theorem claim_release_policy (env : Crew.CrewEnv) (shipsNamespace : String)
    (task : Task) (m : TaskStatusMap) (workerIndex : Nat)
    (h : task.Name ∉ m) :
    ((Crew.processTask env shipsNamespace task m workerIndex).outcome =
        some false →
      task.Name ∉
        (Crew.processTask env shipsNamespace task m workerIndex).taskStatus) ∧
    ((Crew.processTask env shipsNamespace task m workerIndex).outcome =
        some true →
      task.Name ∈
        (Crew.processTask env shipsNamespace task m workerIndex).taskStatus) ∧
    (env.ctxCancelled = true →
      (∃ e, env.attemptResult task.Name 0 = some e) →
      1 ≤ task.MaxRetries →
      Crew.processTask env shipsNamespace task m workerIndex =
        ⟨m, [mkFailMessage task.Name task.MaxRetries], some false⟩) := by
  have hclaim : TaskStatusMap.Claim m task.Name = (true, task.Name :: m) := by
    unfold TaskStatusMap.Claim
    rw [if_neg h]
  refine ⟨?_, ?_, ?_⟩
  · intro ho
    unfold Crew.processTask at *
    rw [hclaim] at ho ⊢
    rcases hp : Crew.performTaskWithRetries env shipsNamespace task workerIndex
      with ⟨ok, msgs, ps⟩
    rw [hp] at ho
    cases ok
    · simp only [Crew.handleFailedTask, TaskStatusMap.Release,
        List.erase_cons_head]
      exact h
    · simp at ho
  · intro ho
    unfold Crew.processTask at *
    rw [hclaim] at ho ⊢
    rcases hp : Crew.performTaskWithRetries env shipsNamespace task workerIndex
      with ⟨ok, msgs, ps⟩
    rw [hp] at ho
    cases ok
    · simp [Crew.handleFailedTask] at ho
    · exact List.mem_cons_self _ _
  · rintro hc ⟨e, he⟩ hmr
    have hpos : 0 < task.MaxRetries.toNat := by omega
    obtain ⟨k, hk⟩ := Nat.exists_eq_succ_of_ne_zero (Nat.pos_iff_ne_zero.mp hpos)
    have hp : Crew.performTaskWithRetries env shipsNamespace task workerIndex =
        (false, [], task.Parameters) := by
      unfold Crew.performTaskWithRetries
      rw [hk]
      unfold Crew.performTaskWithRetriesAux
      rw [he]
      simp [Crew.handleTaskError, hc]
    unfold Crew.processTask
    rw [hclaim, hp]
    simp [Crew.handleFailedTask, TaskStatusMap.Release, List.erase_cons_head]

/-- C7 witness: the amended policy evaluated on the cancelled scenario. -/
theorem claim_release_policy_witness :
    Crew.processTask envCancelledFail "ns" taskT1 [] 0 =
      ⟨[], [mkFailMessage "T1" 3], some false⟩ :=
  (claim_release_policy envCancelledFail "ns" taskT1 [] 0 (by simp)).2.2 rfl
    ⟨PerformErr.generic, rfl⟩ (by decide)

/-- C5 counterexample: `RetryPolicy.Execute` (`worker/error_and_retry.go`
lines 731–750) sleeps with `time.Sleep`, which cancellation cannot abort.
With `MaxRetries = 2`, `RetryDelay = 100` and the context cancelled at time
1 — during the sleep that follows the first failed attempt — the call does
return the cancellation error, but only at time 100, after sleeping out the
full delay. -/
theorem sleep_not_aborted_on_cancellation :
    (Retry.RetryPolicy.Execute ⟨2, 100⟩ ⟨some 1⟩
        (fun _ => some PerformErr.generic) 0).result = Retry.ExecResult.ctxErr ∧
    ¬ ((Retry.RetryPolicy.Execute ⟨2, 100⟩ ⟨some 1⟩
        (fun _ => some PerformErr.generic) 0).finish < 100) := by
  decide

lemma execAux_starts_all (p : Retry.RetryPolicy) (ctx : Retry.Ctx)
    (op : Nat → Option PerformErr) (opDur : Nat) :
    ∀ rem attempt now lastErr acc,
      (acc.all fun t => !(Retry.Ctx.done ctx t)) = true →
      (((Retry.ExecuteAux p ctx op opDur rem attempt now lastErr
          acc).attemptStarts).all fun t => !(Retry.Ctx.done ctx t)) = true := by
  intro rem
  induction rem with
  | zero =>
      intro attempt now lastErr acc hacc
      unfold Retry.ExecuteAux
      simpa using hacc
  | succ r ih =>
      intro attempt now lastErr acc hacc
      unfold Retry.ExecuteAux
      by_cases hd : Retry.Ctx.done ctx now
      · simpa [hd] using hacc
      · rw [if_neg hd]
        cases hop : op attempt with
        | none =>
            simp only [List.all_reverse] at hacc ⊢
            simp [List.all_cons, hd, hacc]
        | some e =>
            have hcons : ((now :: acc).all
                fun t => !(Retry.Ctx.done ctx t)) = true := by
              simp [List.all_cons, hd, hacc]
            exact ih _ _ _ _ hcons

/-- C5 (amended): the cancellation check at the top of every loop iteration
guarantees that no attempt starts once the context is cancelled (every
recorded attempt start time precedes the cancellation instant); the
counterexample above shows the other half of the original claim — aborting
an in-progress delay — does not hold: `time.Sleep` runs to completion and
the cancellation error is only returned at the next iteration's check. -/
theorem no_attempt_after_cancellation (p : Retry.RetryPolicy)
    (ctx : Retry.Ctx) (op : Nat → Option PerformErr) (opDur : Nat) :
    (((Retry.RetryPolicy.Execute p ctx op opDur).attemptStarts).all
      fun t => !(Retry.Ctx.done ctx t)) = true :=
  execAux_starts_all p ctx op opDur p.MaxRetries.toNat 0 0 none [] rfl

lemma execAux_acc (p : Retry.RetryPolicy) (ctx : Retry.Ctx)
    (op : Nat → Option PerformErr) (opDur : Nat) :
    ∀ rem attempt now lastErr acc,
      Retry.ExecuteAux p ctx op opDur rem attempt now lastErr acc =
        ⟨(Retry.ExecuteAux p ctx op opDur rem attempt now lastErr []).result,
         acc.reverse ++
           (Retry.ExecuteAux p ctx op opDur rem attempt now lastErr
             []).attemptStarts,
         (Retry.ExecuteAux p ctx op opDur rem attempt now lastErr []).finish⟩ := by
  intro rem
  induction rem with
  | zero =>
      intro attempt now lastErr acc
      unfold Retry.ExecuteAux
      simp
  | succ r ih =>
      intro attempt now lastErr acc
      unfold Retry.ExecuteAux
      by_cases hd : Retry.Ctx.done ctx now
      · simp [hd]
      · cases hop : op attempt with
        | none => simp [hd, hop]
        | some e =>
            simp only [hd, hop, Bool.false_eq_true, if_false]
            rw [ih (attempt + 1)
                (if (attempt : Int) + 1 < p.MaxRetries then
                  now + opDur + p.RetryDelay.toNat
                else now + opDur) (some e) (now :: acc),
              ih (attempt + 1)
                (if (attempt : Int) + 1 < p.MaxRetries then
                  now + opDur + p.RetryDelay.toNat
                else now + opDur) (some e) [now]]
            simp

lemma exec_len_le (p : Retry.RetryPolicy) (ctx : Retry.Ctx)
    (op : Nat → Option PerformErr) (opDur : Nat) :
    ∀ rem attempt now lastErr,
      (Retry.ExecuteAux p ctx op opDur rem attempt now lastErr
        []).attemptStarts.length ≤ rem := by
  intro rem
  induction rem with
  | zero =>
      intro attempt now lastErr
      unfold Retry.ExecuteAux
      simp
  | succ r ih =>
      intro attempt now lastErr
      unfold Retry.ExecuteAux
      by_cases hd : Retry.Ctx.done ctx now
      · simp [hd]
      · cases hop : op attempt with
        | none => simp [hd, hop]
        | some e =>
            simp only [hd, hop, Bool.false_eq_true, if_false]
            rw [execAux_acc p ctx op opDur r (attempt + 1)
                (if (attempt : Int) + 1 < p.MaxRetries then
                  now + opDur + p.RetryDelay.toNat
                else now + opDur) (some e) [now]]
            simpa using ih (attempt + 1)
              (if (attempt : Int) + 1 < p.MaxRetries then
                now + opDur + p.RetryDelay.toNat
              else now + opDur) (some e)

lemma exec_ok_last (p : Retry.RetryPolicy) (ctx : Retry.Ctx)
    (op : Nat → Option PerformErr) (opDur : Nat) :
    ∀ rem attempt now lastErr,
      (Retry.ExecuteAux p ctx op opDur rem attempt now lastErr []).result =
          Retry.ExecResult.ok →
      0 < (Retry.ExecuteAux p ctx op opDur rem attempt now lastErr
            []).attemptStarts.length ∧
        op (attempt +
          (Retry.ExecuteAux p ctx op opDur rem attempt now lastErr
            []).attemptStarts.length - 1) = none := by
  intro rem
  induction rem with
  | zero =>
      intro attempt now lastErr hres
      unfold Retry.ExecuteAux at hres
      simp at hres
  | succ r ih =>
      intro attempt now lastErr hres
      unfold Retry.ExecuteAux at hres ⊢
      by_cases hd : Retry.Ctx.done ctx now
      · simp [hd] at hres
      · cases hop : op attempt with
        | none => simp [hd, hop]
        | some e =>
            simp only [hd, hop, Bool.false_eq_true, if_false] at hres ⊢
            rw [execAux_acc p ctx op opDur r (attempt + 1)
                (if (attempt : Int) + 1 < p.MaxRetries then
                  now + opDur + p.RetryDelay.toNat
                else now + opDur) (some e) [now]] at hres ⊢
            simp only [List.reverse_cons, List.reverse_nil, List.nil_append,
              List.singleton_append, List.length_cons] at hres ⊢
            obtain ⟨hpos, hlast⟩ := ih (attempt + 1)
              (if (attempt : Int) + 1 < p.MaxRetries then
                now + opDur + p.RetryDelay.toNat
              else now + opDur) (some e) hres
            refine ⟨Nat.succ_pos _, ?_⟩
            have harith : attempt +
                ((Retry.ExecuteAux p ctx op opDur r (attempt + 1)
                  (if (attempt : Int) + 1 < p.MaxRetries then
                    now + opDur + p.RetryDelay.toNat
                  else now + opDur) (some e) []).attemptStarts.length + 1) - 1 =
                attempt + 1 +
                (Retry.ExecuteAux p ctx op opDur r (attempt + 1)
                  (if (attempt : Int) + 1 < p.MaxRetries then
                    now + opDur + p.RetryDelay.toNat
                  else now + opDur) (some e) []).attemptStarts.length - 1 := by
              omega
            rw [harith]
            exact hlast

lemma exec_mid_fail (p : Retry.RetryPolicy) (ctx : Retry.Ctx)
    (op : Nat → Option PerformErr) (opDur : Nat) :
    ∀ rem attempt now lastErr j,
      j + 1 < (Retry.ExecuteAux p ctx op opDur rem attempt now lastErr
        []).attemptStarts.length →
      op (attempt + j) ≠ none := by
  intro rem
  induction rem with
  | zero =>
      intro attempt now lastErr j hj
      unfold Retry.ExecuteAux at hj
      simp at hj
  | succ r ih =>
      intro attempt now lastErr j hj
      unfold Retry.ExecuteAux at hj
      by_cases hd : Retry.Ctx.done ctx now
      · simp [hd] at hj
      · cases hop : op attempt with
        | none => simp [hd, hop] at hj
        | some e =>
            simp only [hd, hop, Bool.false_eq_true, if_false] at hj
            rw [execAux_acc p ctx op opDur r (attempt + 1)
                (if (attempt : Int) + 1 < p.MaxRetries then
                  now + opDur + p.RetryDelay.toNat
                else now + opDur) (some e) [now]] at hj
            simp only [List.reverse_cons, List.reverse_nil, List.nil_append,
              List.singleton_append, List.length_cons] at hj
            cases j with
            | zero => simp [hop]
            | succ j1 =>
                have hidx : attempt + (j1 + 1) = attempt + 1 + j1 := by omega
                rw [hidx]
                exact ih (attempt + 1)
                  (if (attempt : Int) + 1 < p.MaxRetries then
                    now + opDur + p.RetryDelay.toNat
                  else now + opDur) (some e) j1 (by omega)

lemma exec_exhaust (p : Retry.RetryPolicy) (ctx : Retry.Ctx)
    (op : Nat → Option PerformErr) (opDur : Nat)
    (hc : ctx.cancelAt = none) :
    ∀ rem attempt now lastErr,
      1 ≤ rem → (∀ j, j < rem → op (attempt + j) ≠ none) →
      (Retry.ExecuteAux p ctx op opDur rem attempt now lastErr []).result =
        Retry.ExecResult.failedAfterAttempts p.MaxRetries
          (op (attempt + rem - 1)) := by
  intro rem
  induction rem with
  | zero =>
      intro attempt now lastErr hrem hall
      omega
  | succ r ih =>
      intro attempt now lastErr hrem hall
      have hdf : ¬ Retry.Ctx.done ctx now = true := by
        simp [Retry.Ctx.done, hc]
      unfold Retry.ExecuteAux
      cases hop : op attempt with
      | none =>
          exact absurd hop (by simpa using hall 0 (Nat.succ_pos r))
      | some e =>
          simp only [hdf, hop, Bool.false_eq_true, if_false]
          rw [execAux_acc p ctx op opDur r (attempt + 1)
              (if (attempt : Int) + 1 < p.MaxRetries then
                now + opDur + p.RetryDelay.toNat
              else now + opDur) (some e) [now]]
          cases r with
          | zero =>
              unfold Retry.ExecuteAux
              simp only []
              have hidx : attempt + 1 - 1 = attempt := by omega
              rw [hidx, hop]
          | succ r1 =>
              have hall1 : ∀ j, j < r1 + 1 → op (attempt + 1 + j) ≠ none := by
                intro j hjr
                have hidx : attempt + 1 + j = attempt + (j + 1) := by omega
                rw [hidx]
                exact hall (j + 1) (by omega)
              have hres := ih (attempt + 1)
                (if (attempt : Int) + 1 < p.MaxRetries then
                  now + opDur + p.RetryDelay.toNat
                else now + opDur) (some e) (Nat.succ_le_succ (Nat.zero_le r1))
                hall1
              have hidx : attempt + 1 + (r1 + 1) - 1 =
                  attempt + (r1 + 1 + 1) - 1 := by omega
              rw [hres, hidx]

lemma Execute_len_le (p : Retry.RetryPolicy) (ctx : Retry.Ctx)
    (op : Nat → Option PerformErr) (opDur : Nat) :
    (Retry.RetryPolicy.Execute p ctx op opDur).attemptStarts.length ≤
      p.MaxRetries.toNat :=
  exec_len_le p ctx op opDur p.MaxRetries.toNat 0 0 none

/-- C6: `RetryPolicy.Execute` invokes the operation at most `MaxRetries`
times; it returns `nil` exactly when an attempt succeeds, stopping at the
first success (every earlier attempt failed); and when the context is never
cancelled and every attempt in the budget fails, it returns the error
wrapping the attempt budget together with the last attempt's error. -/
theorem Execute_retry_contract (p : Retry.RetryPolicy) (ctx : Retry.Ctx)
    (op : Nat → Option PerformErr) (opDur : Nat) :
    (Retry.RetryPolicy.Execute p ctx op opDur).attemptStarts.length ≤
        p.MaxRetries.toNat ∧
    ((Retry.RetryPolicy.Execute p ctx op opDur).result =
        Retry.ExecResult.ok →
      0 < (Retry.RetryPolicy.Execute p ctx op opDur).attemptStarts.length ∧
      op ((Retry.RetryPolicy.Execute p ctx op
        opDur).attemptStarts.length - 1) = none) ∧
    (∀ j, j + 1 <
        (Retry.RetryPolicy.Execute p ctx op opDur).attemptStarts.length →
      op j ≠ none) ∧
    (ctx.cancelAt = none → 1 ≤ p.MaxRetries →
      (∀ j, j < p.MaxRetries.toNat → op j ≠ none) →
      (Retry.RetryPolicy.Execute p ctx op opDur).result =
        Retry.ExecResult.failedAfterAttempts p.MaxRetries
          (op (p.MaxRetries.toNat - 1))) := by
  refine ⟨Execute_len_le p ctx op opDur, ?_, ?_, ?_⟩
  · intro hok
    have h := exec_ok_last p ctx op opDur p.MaxRetries.toNat 0 0 none hok
    simpa using h
  · intro j hj
    have h := exec_mid_fail p ctx op opDur p.MaxRetries.toNat 0 0 none j hj
    simpa using h
  · intro hc hmr hall
    have h1 : 1 ≤ p.MaxRetries.toNat := by omega
    have h := exec_exhaust p ctx op opDur hc p.MaxRetries.toNat 0 0 none h1
      (fun j hj => by simpa using hall j hj)
    simpa using h

/-- C6 witness: scenario S2 — three attempts that all fail with a generic
error exhaust the budget and surface the last error with the attempt
count. -/
theorem Execute_retry_contract_witness :
    (Retry.RetryPolicy.Execute ⟨3, 10⟩ ⟨none⟩
        (fun _ => some PerformErr.generic) 1).result =
      Retry.ExecResult.failedAfterAttempts 3 (some PerformErr.generic) :=
  (Execute_retry_contract ⟨3, 10⟩ ⟨none⟩ (fun _ => some PerformErr.generic)
    1).2.2.2 rfl (by decide) (fun j hj => by simp)

/-- C4 counterexample: with every attempt returning a conflict and every
conflict resolution succeeding, `performTaskWithRetries`
(`worker/error_and_retry.go` lines 214–259) restarts itself without any
outer bound.  For `maxRetries = 2` the claimed total bound is
`2 × (1 + 2) = 6` invocations, yet after 8 restarting rounds the run is
still unfinished and has already invoked the handler 16 times. -/
theorem conflict_refresh_exceeds_bound :
    (ExecRetry.performTaskWithRetries opConflict getPodOk ⟨none⟩ "ns" taskT5
        8 0 paramsPod).1 = none ∧
    (ExecRetry.performTaskWithRetries opConflict getPodOk ⟨none⟩ "ns" taskT5
        8 0 paramsPod).2.1 = 16 ∧
    ¬ (16 ≤ 2 * (1 + 2)) := by
  refine ⟨by decide, by decide, by decide⟩

lemma ptwrER_bound (op : Nat → Nat → Option PerformErr)
    (getPod : String → String → Option Pod) (ctx : Retry.Ctx)
    (shipsNamespace : String) (task : Task) :
    ∀ fuel round params,
      (ExecRetry.performTaskWithRetries op getPod ctx shipsNamespace task
        fuel round params).2.1 ≤ task.MaxRetries.toNat * fuel := by
  intro fuel
  induction fuel with
  | zero =>
      intro round params
      simp [ExecRetry.performTaskWithRetries]
  | succ f ih =>
      intro round params
      unfold ExecRetry.performTaskWithRetries
      dsimp only
      split
      · dsimp only
        calc (Retry.RetryPolicy.Execute
              ⟨task.MaxRetries, task.RetryDelayDuration⟩ ctx (op round)
              0).attemptStarts.length
            ≤ task.MaxRetries.toNat := Execute_len_le _ _ _ _
          _ ≤ task.MaxRetries.toNat * (f + 1) := by
              rw [Nat.mul_succ]
              exact Nat.le_add_left _ _
      · split
        · split
          · dsimp only
            rw [Nat.mul_succ, Nat.add_comm (task.MaxRetries.toNat * f)]
            exact Nat.add_le_add (Execute_len_le _ _ _ _) (ih (round + 1) _)
          · dsimp only
            calc (Retry.RetryPolicy.Execute
                  ⟨task.MaxRetries, task.RetryDelayDuration⟩ ctx (op round)
                  0).attemptStarts.length
                ≤ task.MaxRetries.toNat := Execute_len_le _ _ _ _
              _ ≤ task.MaxRetries.toNat * (f + 1) := by
                  rw [Nat.mul_succ]
                  exact Nat.le_add_left _ _
        · dsimp only
          calc (Retry.RetryPolicy.Execute
                ⟨task.MaxRetries, task.RetryDelayDuration⟩ ctx (op round)
                0).attemptStarts.length
              ≤ task.MaxRetries.toNat := Execute_len_le _ _ _ _
            _ ≤ task.MaxRetries.toNat * (f + 1) := by
                rw [Nat.mul_succ]
                exact Nat.le_add_left _ _

lemma ptwrER_conflict_diverges :
    ∀ fuel round params pn,
      Params.find params PodName = some (PValue.str pn) →
      (ExecRetry.performTaskWithRetries opConflict getPodOk ⟨none⟩ "ns" taskT5
        fuel round params).1 = none := by
  intro fuel
  induction fuel with
  | zero =>
      intro round params pn hpn
      rfl
  | succ f ih =>
      intro round params pn hpn
      unfold ExecRetry.performTaskWithRetries
      dsimp only
      have htr : (Retry.RetryPolicy.Execute
          ⟨taskT5.MaxRetries, taskT5.RetryDelayDuration⟩ ⟨none⟩
          (opConflict round) 0).result =
          Retry.ExecResult.failedAfterAttempts 2 (some PerformErr.conflict) :=
        rfl
      have hg : getParamAsString params PodName = Except.ok pn := by
        unfold getParamAsString
        rw [hpn]
      have hrc : resolveConflict getPodOk "ns" params =
          (none, Params.insert params ResourceVersion (PValue.str "v2")) := by
        unfold resolveConflict
        simp only [hg, getLatestVersionOfPod, getPodOk]
      have hhc : handleConflictError getPodOk "ns" params =
          (true, Params.insert params ResourceVersion (PValue.str "v2")) := by
        unfold handleConflictError
        rw [hrc]
      rw [htr]
      simp only [ExecRetry.isConflictErr, if_true]
      rw [hhc]
      dsimp only
      exact ih (round + 1) (Params.insert params ResourceVersion
        (PValue.str "v2")) pn
        (by rw [Params.find_insert_ne _ _ _ _ (by decide)]; exact hpn)

/-- C4 (amended): the handler is invoked at most `maxRetries` times per
round of the executor-level conflict restart (so at most
`maxRetries × rounds` in total), but the number of restart rounds is NOT
bounded by `maxRetries` — the recursion in `performTaskWithRetries` has no
outer counter, and with persistent conflicts and a succeeding refresh it
never reaches a terminal outcome (S5 environment: every attempt conflicts,
every pod fetch succeeds). -/
theorem conflict_restart_unbounded :
    (∀ (op : Nat → Nat → Option PerformErr)
        (getPod : String → String → Option Pod) (ctx : Retry.Ctx)
        (shipsNamespace : String) (task : Task) (fuel round : Nat)
        (params : Params),
      (ExecRetry.performTaskWithRetries op getPod ctx shipsNamespace task
        fuel round params).2.1 ≤ task.MaxRetries.toNat * fuel) ∧
    (∀ (fuel round : Nat) (params : Params) (pn : String),
      Params.find params PodName = some (PValue.str pn) →
      (ExecRetry.performTaskWithRetries opConflict getPodOk ⟨none⟩ "ns" taskT5
        fuel round params).1 = none) :=
  ⟨fun op getPod ctx shipsNamespace task fuel round params =>
      ptwrER_bound op getPod ctx shipsNamespace task fuel round params,
    ptwrER_conflict_diverges⟩

/-- C4 witness: the per-round bound and the divergence at concrete fuel. -/
theorem conflict_restart_unbounded_witness :
    (ExecRetry.performTaskWithRetries opConflict getPodOk ⟨none⟩ "ns" taskT5
        3 0 paramsPod).2.1 ≤ 2 * 3 ∧
    (ExecRetry.performTaskWithRetries opConflict getPodOk ⟨none⟩ "ns" taskT5
        5 0 paramsPod).1 = none :=
  ⟨conflict_restart_unbounded.1 opConflict getPodOk ⟨none⟩ "ns" taskT5 3 0
      paramsPod,
    conflict_restart_unbounded.2 5 0 paramsPod "p" rfl⟩

/-- C8 counterexample: the loader validates only that `retryDelay` parses.
A batch whose first task has `maxRetries = 0` and whose second task
duplicates the first's name with a negative delay (`"-1s"` parses to a
negative duration) loads successfully, violating all three claimed
invariants (`maxRetries ≥ 1`, `retryDelay ≥ 0`, name uniqueness). -/
theorem loader_accepts_invalid_invariants :
    Cfg.LoadTasksFromJSON [rawZeroRetries, rawNegDelay] =
      Except.ok [⟨"t1", "ns", 0, "1s", 1000000000, "x", []⟩,
        ⟨"t1", "ns", 1, "-1s", -1000000000, "x", []⟩] ∧
    ¬ (1 ≤ (⟨"t1", "ns", 0, "1s", 1000000000, "x", []⟩ : Task).MaxRetries) ∧
    (⟨"t1", "ns", 1, "-1s", -1000000000, "x", []⟩ : Task).RetryDelayDuration
        < 0 ∧
    (⟨"t1", "ns", 0, "1s", 1000000000, "x", []⟩ : Task).Name =
      (⟨"t1", "ns", 1, "-1s", -1000000000, "x", []⟩ : Task).Name :=
  ⟨rfl, by decide, by decide, rfl⟩

/-- C8 (amended): the loader enforces exactly the delay-parsing contract:
a batch containing a task whose `retryDelay` is empty or unparsable fails
to load, and on success every returned task is the input task with
`RetryDelayDuration` set to the parsed value of its `RetryDelay` string.
The invariants `maxRetries ≥ 1`, `retryDelay ≥ 0` and name uniqueness are
NOT checked by the loader. -/
theorem LoadTasks_parse_contract (decoded : List Task) :
    (∀ ts, Cfg.LoadTasksFromJSON decoded = Except.ok ts →
      List.Forall₂ (fun raw out =>
        Cfg.ParseDuration raw.RetryDelay = Except.ok out.RetryDelayDuration ∧
        out = { raw with RetryDelayDuration := out.RetryDelayDuration })
        decoded ts) ∧
    ((∃ t ∈ decoded, ∃ e, Cfg.ParseDuration t.RetryDelay = Except.error e) →
      ∃ e1, Cfg.LoadTasksFromJSON decoded = Except.error e1) := by
  induction decoded with
  | nil =>
      constructor
      · intro ts hts
        unfold Cfg.LoadTasksFromJSON at hts
        cases hts
        exact List.Forall₂.nil
      · rintro ⟨t, ht, _⟩
        simp at ht
  | cons t rest ih =>
      constructor
      · intro ts hts
        unfold Cfg.LoadTasksFromJSON at hts
        cases hp : Cfg.ParseDuration t.RetryDelay with
        | error e =>
            rw [hp] at hts
            cases hts
        | ok d =>
            rw [hp] at hts
            cases hr : Cfg.LoadTasksFromJSON rest with
            | error e =>
                rw [hr] at hts
                cases hts
            | ok tasks =>
                rw [hr] at hts
                cases hts
                exact List.Forall₂.cons ⟨hp, rfl⟩ (ih.1 tasks hr)
      · rintro ⟨u, hu, e, he⟩
        rcases List.mem_cons.mp hu with hut | hur
        · subst hut
          refine ⟨Cfg.LoadError.retryDelayParse u.Name e, ?_⟩
          unfold Cfg.LoadTasksFromJSON
          rw [he]
        · obtain ⟨e1, he1⟩ := ih.2 ⟨u, hur, e, he⟩
          cases hp : Cfg.ParseDuration t.RetryDelay with
          | error e2 =>
              refine ⟨Cfg.LoadError.retryDelayParse t.Name e2, ?_⟩
              unfold Cfg.LoadTasksFromJSON
              rw [hp]
          | ok d =>
              refine ⟨e1, ?_⟩
              unfold Cfg.LoadTasksFromJSON
              rw [hp, he1]

/-- C8 witness: the parse contract applied to a concrete one-task batch. -/
theorem LoadTasks_parse_contract_witness :
    List.Forall₂ (fun raw out =>
      Cfg.ParseDuration raw.RetryDelay = Except.ok out.RetryDelayDuration ∧
      out = { raw with RetryDelayDuration := out.RetryDelayDuration })
      [rawZeroRetries] [⟨"t1", "ns", 0, "1s", 1000000000, "x", []⟩] :=
  (LoadTasks_parse_contract [rawZeroRetries]).1
    [⟨"t1", "ns", 0, "1s", 1000000000, "x", []⟩] rfl

/-- C1 counterexample: scenario S6 with a failing task.  Two workers share
the slice `[taskT]`; worker 0 claims the task, fails terminally and — per
`handleFailedTask` — releases it; worker 1, still iterating the slice, then
claims it again and drives the handler to a second terminal outcome.  The
schedule `[0, 0, 1, 1]` yields two terminal outcomes for the name `T`. -/
theorem terminal_outcome_twice_after_release :
    ¬ (Pool.terminalCount
        (Pool.run envAllFail "ns" (Pool.initState [taskT] 2)
          [0, 0, 1, 1]).log "T" ≤ 1) := by
  decide

lemma countP_set {α : Type} (l : List α) (i : Nat) (a : α) (p : α → Bool)
    (h : i < l.length) :
    (l.set i a).countP p + (if p (l.get ⟨i, h⟩) then 1 else 0) =
      l.countP p + (if p a then 1 else 0) := by
  induction l generalizing i with
  | nil => simp at h
  | cons hd tl ih =>
      cases i with
      | zero => simp [List.countP_cons]; omega
      | succ i1 =>
          have h1 : i1 < tl.length := by simpa using h
          have := ih i1 h1
          simp only [List.set, List.countP_cons, List.get]
          omega

lemma successCount_append (log : List Pool.TEvent) (e : Pool.TEvent)
    (n : String) :
    Pool.successCount (log ++ [e]) n =
      Pool.successCount log n +
        (if e.name == n && e.success then 1 else 0) := by
  unfold Pool.successCount
  rw [List.filter_append, List.length_append]
  congr 1
  by_cases he : (e.name == n && e.success) = true <;> simp [he]

lemma finishTask_parts (env : Crew.CrewEnv) (shipsNamespace : String)
    (task : Task) (ts : TaskStatusMap) (w : Nat) (m1 : TaskStatusMap)
    (out : List String) (ok : Bool)
    (hf : Pool.finishTask env shipsNamespace task ts w = (m1, out, ok)) :
    m1 = if ok then ts else TaskStatusMap.Release ts task.Name := by
  unfold Pool.finishTask at hf
  rcases hptwr : Crew.performTaskWithRetries env shipsNamespace task w
    with ⟨b, msgs, ps⟩
  rw [hptwr] at hf
  cases b
  · simp only [Crew.handleFailedTask] at hf
    cases hf
    rfl
  · cases hf
    rfl

lemma ownersCount_set (workers : List Pool.WorkerState) (w : Nat)
    (ws1 : Pool.WorkerState) (n : String) (h : w < workers.length) :
    Pool.ownersCount (workers.set w ws1) n +
      (if (match (workers.get ⟨w, h⟩).cur with
        | some t => t.Name == n
        | none => false) = true then 1 else 0) =
      Pool.ownersCount workers n +
      (if (match ws1.cur with
        | some t => t.Name == n
        | none => false) = true then 1 else 0) :=
  countP_set workers w ws1 _ h

lemma step_finish (env : Crew.CrewEnv) (shipsNamespace : String)
    (s : Pool.SystemState) (w : Nat) (ws : Pool.WorkerState) (task : Task)
    (hw : s.workers[w]? = some ws) (hcur : ws.cur = some task) :
    Pool.step env shipsNamespace s w =
      { workers := s.workers.set w { ws with cur := none },
        taskStatus :=
          (Pool.finishTask env shipsNamespace task s.taskStatus w).1,
        results := s.results ++
          (Pool.finishTask env shipsNamespace task s.taskStatus w).2.1,
        log := s.log ++ [⟨w, task.Name,
          (Pool.finishTask env shipsNamespace task s.taskStatus w).2.2⟩] } := by
  unfold Pool.step
  rw [hw]
  dsimp only
  rw [hcur]

lemma step_claim_fail (env : Crew.CrewEnv) (shipsNamespace : String)
    (s : Pool.SystemState) (w : Nat) (ws : Pool.WorkerState) (task : Task)
    (rest : List Task) (hw : s.workers[w]? = some ws) (hcur : ws.cur = none)
    (hq : ws.queue = task :: rest) (hmem : task.Name ∈ s.taskStatus) :
    Pool.step env shipsNamespace s w =
      { s with workers := s.workers.set w { queue := rest, cur := none } } := by
  unfold Pool.step
  rw [hw]
  dsimp only
  rw [hcur]
  dsimp only
  rw [hq]
  dsimp only
  have hcl : TaskStatusMap.Claim s.taskStatus task.Name =
      (false, s.taskStatus) := by
    unfold TaskStatusMap.Claim
    rw [if_pos hmem]
  rw [hcl]

lemma step_claim_ok (env : Crew.CrewEnv) (shipsNamespace : String)
    (s : Pool.SystemState) (w : Nat) (ws : Pool.WorkerState) (task : Task)
    (rest : List Task) (hw : s.workers[w]? = some ws) (hcur : ws.cur = none)
    (hq : ws.queue = task :: rest) (hmem : task.Name ∉ s.taskStatus) :
    Pool.step env shipsNamespace s w =
      { s with
        workers := s.workers.set w { queue := rest, cur := some task },
        taskStatus := task.Name :: s.taskStatus } := by
  unfold Pool.step
  rw [hw]
  dsimp only
  rw [hcur]
  dsimp only
  rw [hq]
  dsimp only
  have hcl : TaskStatusMap.Claim s.taskStatus task.Name =
      (true, task.Name :: s.taskStatus) := by
    unfold TaskStatusMap.Claim
    rw [if_neg hmem]
  rw [hcl]

lemma step_preserves_Inv (env : Crew.CrewEnv) (shipsNamespace : String)
    (w : Nat) (n : String) (s : Pool.SystemState) (hInv : Pool.Inv s n) :
    Pool.Inv (Pool.step env shipsNamespace s w) n := by
  obtain ⟨hnd, hle, hiff⟩ := hInv
  cases hw : s.workers[w]? with
  | none =>
      unfold Pool.step
      rw [hw]
      exact ⟨hnd, hle, hiff⟩
  | some ws =>
      have hwlt : w < s.workers.length := by
        rcases List.getElem?_eq_some.mp hw with ⟨h1, _⟩
        exact h1
      have hget : s.workers.get ⟨w, hwlt⟩ = ws := by
        rcases List.getElem?_eq_some.mp hw with ⟨h1, h2⟩
        simpa using h2
      cases hcur : ws.cur with
      | some task =>
          rw [step_finish env shipsNamespace s w ws task hw hcur]
          rcases hf : Pool.finishTask env shipsNamespace task s.taskStatus w
            with ⟨m1, out, ok⟩
          have hm1 := finishTask_parts env shipsNamespace task s.taskStatus w
            m1 out ok hf
          dsimp only
          have hown := ownersCount_set s.workers w { ws with cur := none } n
            hwlt
          rw [hget] at hown
          simp only [hcur] at hown
          by_cases hn : task.Name = n
          · have hpred : (task.Name == n) = true := beq_iff_eq.mpr hn
            rw [hpred] at hown
            simp at hown
            have hsum : Pool.successCount s.log n +
                Pool.ownersCount s.workers n = 1 := by
              omega
            have hmem : n ∈ s.taskStatus := hiff.mpr hsum
            have hsc : Pool.successCount s.log n = 0 := by omega
            have hownew : Pool.ownersCount
                (s.workers.set w { queue := ws.queue, cur := none }) n = 0 := by
              omega
            have hscf : Pool.successCount
                (s.log ++ [⟨w, task.Name, false⟩]) n =
                Pool.successCount s.log n := by
              rw [successCount_append]
              simp
            have hsct : Pool.successCount
                (s.log ++ [⟨w, task.Name, true⟩]) n =
                Pool.successCount s.log n + 1 := by
              rw [successCount_append]
              simp [hpred]
            cases ok
            · rw [if_neg (by simp)] at hm1
              subst hm1
              refine ⟨List.Nodup.erase _ hnd, ?_, ?_⟩
              · show Pool.successCount (s.log ++ [⟨w, task.Name, false⟩]) n +
                    Pool.ownersCount
                      (s.workers.set w { queue := ws.queue, cur := none }) n
                    ≤ 1
                rw [hscf]
                omega
              · show n ∈ TaskStatusMap.Release s.taskStatus task.Name ↔
                    Pool.successCount (s.log ++ [⟨w, task.Name, false⟩]) n +
                    Pool.ownersCount
                      (s.workers.set w { queue := ws.queue, cur := none }) n
                    = 1
                rw [hscf, TaskStatusMap.Release]
                subst hn
                constructor
                · intro hin
                  exact absurd ((List.Nodup.mem_erase_iff hnd).mp hin).1
                    (by simp)
                · intro hnum
                  exfalso
                  omega
            · rw [if_pos rfl] at hm1
              subst hm1
              refine ⟨hnd, ?_, ?_⟩
              · show Pool.successCount (s.log ++ [⟨w, task.Name, true⟩]) n +
                    Pool.ownersCount
                      (s.workers.set w { queue := ws.queue, cur := none }) n
                    ≤ 1
                rw [hsct]
                omega
              · show n ∈ s.taskStatus ↔
                    Pool.successCount (s.log ++ [⟨w, task.Name, true⟩]) n +
                    Pool.ownersCount
                      (s.workers.set w { queue := ws.queue, cur := none }) n
                    = 1
                rw [hsct]
                constructor
                · intro _
                  omega
                · intro _
                  exact hmem
          · have hpred : (task.Name == n) = false :=
              beq_eq_false_iff_ne.mpr hn
            rw [hpred] at hown
            simp at hown
            have hsca : ∀ b, Pool.successCount
                (s.log ++ [⟨w, task.Name, b⟩]) n =
                Pool.successCount s.log n := by
              intro b
              rw [successCount_append]
              simp [hpred]
            cases ok
            · rw [if_neg (by simp)] at hm1
              subst hm1
              refine ⟨List.Nodup.erase _ hnd, ?_, ?_⟩
              · show Pool.successCount (s.log ++ [⟨w, task.Name, false⟩]) n +
                    Pool.ownersCount
                      (s.workers.set w { queue := ws.queue, cur := none }) n
                    ≤ 1
                rw [hsca]
                omega
              · show n ∈ TaskStatusMap.Release s.taskStatus task.Name ↔
                    Pool.successCount (s.log ++ [⟨w, task.Name, false⟩]) n +
                    Pool.ownersCount
                      (s.workers.set w { queue := ws.queue, cur := none }) n
                    = 1
                rw [hsca, TaskStatusMap.Release,
                  List.mem_erase_of_ne (fun e => hn e.symm), hiff]
                omega
            · rw [if_pos rfl] at hm1
              subst hm1
              refine ⟨hnd, ?_, ?_⟩
              · show Pool.successCount (s.log ++ [⟨w, task.Name, true⟩]) n +
                    Pool.ownersCount
                      (s.workers.set w { queue := ws.queue, cur := none }) n
                    ≤ 1
                rw [hsca]
                omega
              · show n ∈ s.taskStatus ↔
                    Pool.successCount (s.log ++ [⟨w, task.Name, true⟩]) n +
                    Pool.ownersCount
                      (s.workers.set w { queue := ws.queue, cur := none }) n
                    = 1
                rw [hsca, hiff]
                omega
      | none =>
          cases hq : ws.queue with
          | nil =>
              unfold Pool.step
              rw [hw]
              dsimp only
              rw [hcur]
              dsimp only
              rw [hq]
              exact ⟨hnd, hle, hiff⟩
          | cons task rest =>
              by_cases hmem : task.Name ∈ s.taskStatus
              · rw [step_claim_fail env shipsNamespace s w ws task rest hw
                  hcur hq hmem]
                have hown := ownersCount_set s.workers w
                  { queue := rest, cur := none } n hwlt
                rw [hget] at hown
                simp only [hcur] at hown
                simp at hown
                refine ⟨hnd, ?_, ?_⟩
                · show Pool.successCount s.log n +
                      Pool.ownersCount
                        (s.workers.set w { queue := rest, cur := none }) n
                      ≤ 1
                  omega
                · show n ∈ s.taskStatus ↔
                      Pool.successCount s.log n +
                      Pool.ownersCount
                        (s.workers.set w { queue := rest, cur := none }) n
                      = 1
                  rw [hiff]
                  omega
              · rw [step_claim_ok env shipsNamespace s w ws task rest hw
                  hcur hq hmem]
                have hown := ownersCount_set s.workers w
                  { queue := rest, cur := some task } n hwlt
                rw [hget] at hown
                simp only [hcur] at hown
                by_cases hn : task.Name = n
                · have hpred : (task.Name == n) = true := beq_iff_eq.mpr hn
                  simp [hpred] at hown
                  have hnmem : n ∉ s.taskStatus := hn ▸ hmem
                  have hsum0 : Pool.successCount s.log n +
                      Pool.ownersCount s.workers n = 0 := by
                    rcases Nat.lt_or_ge (Pool.successCount s.log n +
                      Pool.ownersCount s.workers n) 1 with h1 | h1
                    · omega
                    · exact absurd (hiff.mpr (by omega)) hnmem
                  refine ⟨List.nodup_cons.mpr ⟨hmem, hnd⟩, ?_, ?_⟩
                  · show Pool.successCount s.log n +
                        Pool.ownersCount
                          (s.workers.set w { queue := rest, cur := some task })
                          n ≤ 1
                    omega
                  · show n ∈ task.Name :: s.taskStatus ↔
                        Pool.successCount s.log n +
                        Pool.ownersCount
                          (s.workers.set w { queue := rest, cur := some task })
                          n = 1
                    constructor
                    · intro _
                      omega
                    · intro _
                      exact hn ▸ List.mem_cons_self task.Name s.taskStatus
                · have hpred : (task.Name == n) = false :=
                    beq_eq_false_iff_ne.mpr hn
                  simp [hpred] at hown
                  refine ⟨List.nodup_cons.mpr ⟨hmem, hnd⟩, ?_, ?_⟩
                  · show Pool.successCount s.log n +
                        Pool.ownersCount
                          (s.workers.set w { queue := rest, cur := some task })
                          n ≤ 1
                    omega
                  · show n ∈ task.Name :: s.taskStatus ↔
                        Pool.successCount s.log n +
                        Pool.ownersCount
                          (s.workers.set w { queue := rest, cur := some task })
                          n = 1
                    rw [List.mem_cons]
                    constructor
                    · intro hin
                      rcases hin with he | hin
                      · exact absurd he.symm hn
                      · rw [hiff] at hin
                        omega
                    · intro hnum
                      right
                      rw [hiff]
                      omega

lemma run_preserves_Inv (env : Crew.CrewEnv) (shipsNamespace : String)
    (n : String) :
    ∀ (schedule : List Nat) (s : Pool.SystemState), Pool.Inv s n →
      Pool.Inv (Pool.run env shipsNamespace s schedule) n := by
  intro schedule
  induction schedule with
  | nil =>
      intro s hs
      exact hs
  | cons w sched ih =>
      intro s hs
      exact ih (Pool.step env shipsNamespace s w)
        (step_preserves_Inv env shipsNamespace w n s hs)

lemma initState_Inv (tasks : List Task) (workerCount : Nat) (n : String) :
    Pool.Inv (Pool.initState tasks workerCount) n := by
  refine ⟨List.nodup_nil, ?_, ?_⟩
  · have how : Pool.ownersCount
        (List.replicate workerCount (⟨tasks, none⟩ : Pool.WorkerState)) n
        = 0 := by
      unfold Pool.ownersCount
      rw [List.countP_eq_zero]
      intro ws hws
      rw [List.eq_of_mem_replicate hws]
      simp
    unfold Pool.initState Pool.successCount
    simp [how]
  · have how : Pool.ownersCount
        (List.replicate workerCount (⟨tasks, none⟩ : Pool.WorkerState)) n
        = 0 := by
      unfold Pool.ownersCount
      rw [List.countP_eq_zero]
      intro ws hws
      rw [List.eq_of_mem_replicate hws]
      simp
    unfold Pool.initState Pool.successCount
    simp [how]

/-- C1 (amended): across the whole worker pool, under every interleaving of
claim and terminal phases and for every worker count, a given task name is
driven to a SUCCESSFUL terminal outcome at most once (success retains the
claim forever, and the claim is held exclusively while a worker runs the
task).  The original at-most-once claim for all terminal outcomes fails:
`handleFailedTask` releases the claim on terminal failure, so another worker
still iterating the shared slice may re-run a failed task (see the
counterexample). -/
theorem success_at_most_once (env : Crew.CrewEnv) (shipsNamespace : String)
    (tasks : List Task) (workerCount : Nat) (schedule : List Nat)
    (n : String) :
    Pool.successCount
      (Pool.run env shipsNamespace (Pool.initState tasks workerCount)
        schedule).log n ≤ 1 := by
  have h := run_preserves_Inv env shipsNamespace n schedule
    (Pool.initState tasks workerCount)
    (initState_Inv tasks workerCount n)
  have h2 := h.2.1
  omega

end K8sBlackPearl
